import Mathlib

/-!
Formal model of the UEFA Champions League schedule-optimization repository
(source file: src/codi_CLactual.py).  The file embeds, in order: the
name-normalization routine and the travel aggregation of the analytics part,
the two haversine distance functions, the team registry and the PuLP
constraint model generated by the optimizer, and the conversion of solver
variables to a fixture matrix.  The theorems at the end settle the frozen
claims about the specification.
-/

namespace CL

/-! ## Name normalization (src/codi_CLactual.py:27-34) -/

/-- External character-level primitives of the Python runtime used by
`normalize_name`: whitespace classification (`str.isspace`, used by `strip`
and `split`), full case folding (`str.casefold`, one character may fold to
several), the per-character compatibility decomposition applied by
`unicodedata.normalize` with form NFKD, and the canonical combining class
(`unicodedata.combining`).  These are Unicode data tables living in the
Python runtime, not in the repository, so the embedding is parametric in
them; concrete instances below record documented table entries. -/
structure UnicodeModel where
  isSpace : Char → Bool
  casefoldChar : Char → List Char
  nfkdChar : Char → List Char
  combClass : Char → Nat

/-- Python `str.strip()`: drop whitespace from both ends. -/
def pyStrip (sp : Char → Bool) (l : List Char) : List Char :=
  ((l.dropWhile sp).reverse.dropWhile sp).reverse

/-- Helper for Python `str.split()`: cut the character list at every
whitespace character, keeping empty fields (dropped by `splitWs`). -/
def splitAll (sp : Char → Bool) : List Char → List (List Char)
  | [] => [[]]
  | c :: rest =>
    let r := splitAll sp rest
    if sp c then [] :: r else (c :: r.headD []) :: r.tail

/-- Python `str.split()` with no argument: split on whitespace runs and
return the nonempty fields. -/
def splitWs (sp : Char → Bool) (l : List Char) : List (List Char) :=
  (splitAll sp l).filter (fun w => !w.isEmpty)

/-- Python `" ".join(ws)`. -/
def joinSpace : List (List Char) → List Char
  | [] => []
  | [w] => w
  | w :: ws => w ++ ' ' :: joinSpace ws

/-- Characters a single input character contributes to the mark-stripped
NFKD output: casefold, then compatibility-decompose, then drop combining
marks.  The canonical-reordering step of NFKD only permutes combining marks,
all of which the `unicodedata.combining` filter of line 32 removes, so the
reordering cannot change the filtered output and is not modeled. -/
def pipelineChar (m : UnicodeModel) (d : Char) : List Char :=
  ((m.casefoldChar d).flatMap m.nfkdChar).filter (fun c => m.combClass c == 0)

/-- `normalize_name` (src/codi_CLactual.py:27) on a proper string (the
`pd.isna` branch is handled by `normalize_name_top`): strip, casefold,
NFKD with combining marks removed, then whitespace collapse with
`" ".join(s.split())`. -/
def normalize_name (m : UnicodeModel) (l : List Char) : List Char :=
  let s1 := pyStrip m.isSpace l
  let s2 := s1.flatMap m.casefoldChar
  let s3 := (s2.flatMap m.nfkdChar).filter (fun c => m.combClass c == 0)
  joinSpace (splitWs m.isSpace s3)

/-- `normalize_name` including the `pd.isna` test of line 29: a missing value
(`None` or `NaN`, modeled as `Option.none`) is returned as `None`. -/
def normalize_name_top (m : UnicodeModel) : Option (List Char) → Option (List Char)
  | none => none
  | some l => some (normalize_name m l)

/-- Identity-like table model: every character folds and decomposes to
itself and has combining class 0; only the space character is whitespace.
Every Unicode model agrees with it on plain ASCII letters and digits. -/
def mId : UnicodeModel where
  isSpace := fun c => c == ' '
  casefoldChar := fun c => [c]
  nfkdChar := fun c => [c]
  combClass := fun _ => 0

/-- Fragment of the published Unicode tables relevant to U+1D400
MATHEMATICAL BOLD CAPITAL A.  CaseFolding.txt has no entry for U+1D400, so
`str.casefold` leaves it unchanged; UnicodeData.txt gives it the
compatibility decomposition U+0041 LATIN CAPITAL LETTER A, and U+0041
case-folds to U+0061; none of these characters is a combining mark and only
the space character is whitespace.  All characters outside this fragment are
modeled as inert, which only matters for the concrete strings evaluated. -/
def mUnicode : UnicodeModel where
  isSpace := fun c => c == ' '
  casefoldChar := fun c => if c = 'A' then ['a'] else [c]
  nfkdChar := fun c => if c = '𝐀' then ['A'] else [c]
  combClass := fun _ => 0

/-! ## Great-circle distance (src/codi_CLactual.py:12-20 and 161-188) -/

open Real

/-- `math.radians`: degrees to radians. -/
noncomputable def radians (x : ℝ) : ℝ := x * π / 180

/-- Python `math.atan2 y x`. -/
noncomputable def atan2 (y x : ℝ) : ℝ :=
  if 0 < x then arctan (y / x)
  else if x < 0 then (if 0 ≤ y then arctan (y / x) + π else arctan (y / x) - π)
  else if 0 < y then π / 2
  else if y < 0 then -(π / 2)
  else 0

/-- The haversine intermediate `a`, computed by the same expression in
`haversine_km` (line 17) and `calcular_distancia_haversine` (line 185):
the squared sine of half the latitude difference plus the product of the
cosines of the latitudes times the squared sine of half the longitude
difference, all in radians. -/
noncomputable def havA (lat1 lon1 lat2 lon2 : ℝ) : ℝ :=
  sin ((radians lat2 - radians lat1) / 2) ^ 2 +
    cos (radians lat1) * cos (radians lat2) *
      sin ((radians lon2 - radians lon1) / 2) ^ 2

/-- `haversine_km` (src/codi_CLactual.py:12): central angle
`c = 2 * asin(sqrt a)`, Earth radius 6371.0088 km. -/
noncomputable def haversine_km (lat1 lon1 lat2 lon2 : ℝ) : ℝ :=
  6371.0088 * (2 * arcsin (Real.sqrt (havA lat1 lon1 lat2 lon2)))

/-- `calcular_distancia_haversine` (src/codi_CLactual.py:161): central angle
`c = 2 * atan2(sqrt a, sqrt (1 - a))`, Earth radius 6371.0 km. -/
noncomputable def calcular_distancia_haversine (lat1 lon1 lat2 lon2 : ℝ) : ℝ :=
  6371.0 * (2 * atan2 (Real.sqrt (havA lat1 lon1 lat2 lon2))
    (Real.sqrt (1 - havA lat1 lon1 lat2 lon2)))

/-! ## Team registry (src/codi_CLactual.py:118-154) -/

/-- A team record as built by `llegir_dades_excel` (src/codi_CLactual.py:145):
name, stadium, decimal-degree coordinates, country abbreviation, pot.  The
Python dict keyed by the dense row index `0..N-1` is modeled as a
`List Equip`, the index being the list position. -/
structure Equip where
  nom : String
  estadi : String
  lat : ℝ
  lon : ℝ
  pais : String
  pot : Nat

/-- Field access `equips[i]`; every loop of the source runs over
`i in range(len(equips))`, so the default record is never read. -/
noncomputable def getEquip (E : List Equip) (i : Nat) : Equip :=
  E.getD i ⟨"", "", 0, 0, "", 0⟩

/-- `crear_matriu_distancies` (src/codi_CLactual.py:191): N×N matrix
initialized to 0.0 and filled with `calcular_distancia_haversine` for
`i != j`; the diagonal keeps its initial 0.0. -/
noncomputable def crear_matriu_distancies (E : List Equip) : List (List ℝ) :=
  (List.range E.length).map fun i =>
    (List.range E.length).map fun j =>
      if i ≠ j then
        calcular_distancia_haversine (getEquip E i).lat (getEquip E i).lon
          (getEquip E j).lat (getEquip E j).lon
      else 0

/-- Matrix entry `m[i][j]` with out-of-range default 0. -/
noncomputable def matGet (M : List (List ℝ)) (i j : Nat) : ℝ :=
  (M.getD i []).getD j 0

/-! ## The constraint model (src/codi_CLactual.py:218-301) -/

/-- Comparison operator of one generated constraint. -/
inductive Rel where
  | eq
  | le
deriving DecidableEq, Repr

/-- One linear constraint of the PuLP model: a sum of decision variables
`x[(i,j)]` (every generated coefficient is 1) compared with a constant. -/
structure LinCon where
  terms : List (Nat × Nat)
  rel : Rel
  rhs : Nat
deriving DecidableEq, Repr

/-- `TOTAL_PARTITS` (line 237). -/
def TOTAL_PARTITS : Nat := 8

/-- `MAX_RIVAL_MATEIX_PAIS` (line 238). -/
def MAX_RIVAL_MATEIX_PAIS : Nat := 2

/-- `PARTITS_PER_POT` (line 239). -/
def PARTITS_PER_POT : Nat := 1

/-- The fixed pot list `[1, 2, 3, 4]`: key set of `equips_per_pot`
(line 247) and iteration order of the pot constraints (line 295). -/
def potsConfigurats : List Nat := [1, 2, 3, 4]

/-- Number of configured pots. -/
def nombreDePots : Nat := potsConfigurats.length

/-- `equips_per_pot[p]` after the precompute loop (lines 250-255): the loop
appends each `i in range(N)` in increasing order to the list of its pot, so
the list for pot `p` is the increasing list of indices whose pot is `p`. -/
noncomputable def equips_per_pot (E : List Equip) (p : Nat) : List Nat :=
  (List.range E.length).filter (fun i => (getEquip E i).pot == p)

/-- `equips_per_pais[c]` after the same loop: the increasing list of indices
of the teams of country `c`. -/
noncomputable def equips_per_pais (E : List Equip) (c : String) : List Nat :=
  (List.range E.length).filter (fun i => (getEquip E i).pais == c)

/-- Key order of the dict `equips_per_pais`: the countries of the registry in
first-appearance order (Python dicts preserve insertion order). -/
noncomputable def paisKeys (E : List Equip) : List String :=
  ((List.range E.length).map (fun i => (getEquip E i).pais)).foldl
    (fun acc p => if p ∈ acc then acc else acc ++ [p]) []

/-- Constraint family 1 (lines 268-270): each team plays `TOTAL_PARTITS // 2`
matches away and as many at home; both sums run over every `j in range(N)`,
the diagonal variable included. -/
noncomputable def consGraus (E : List Equip) : List LinCon :=
  (List.range E.length).flatMap fun i =>
    [⟨(List.range E.length).map (fun j => (i, j)), Rel.eq, TOTAL_PARTITS / 2⟩,
     ⟨(List.range E.length).map (fun j => (j, i)), Rel.eq, TOTAL_PARTITS / 2⟩]

/-- Constraint family 2 (lines 273-276): at most one match for every ordered
pair `i != j`. -/
noncomputable def consParella (E : List Equip) : List LinCon :=
  (List.range E.length).flatMap fun i =>
    ((List.range E.length).filter (fun j => i != j)).map fun j =>
      ⟨[(i, j), (j, i)], Rel.le, 1⟩

/-- Constraint family 3 (lines 279-282): no match between two teams of the
same country. -/
noncomputable def consMateixPais (E : List Equip) : List LinCon :=
  (List.range E.length).flatMap fun i =>
    ((List.range E.length).filter
      (fun j => i != j && (getEquip E i).pais == (getEquip E j).pais)).map fun j =>
      ⟨[(i, j)], Rel.eq, 0⟩

/-- Constraint family 4 (lines 284-291): for every team `i` and every key
country `c` other than `i`'s own, the matches of `i` against teams of `c`
(both directions, `i` itself filtered out of the member list as in line 289)
number at most `MAX_RIVAL_MATEIX_PAIS`. -/
noncomputable def consPaisEstranger (E : List Equip) : List LinCon :=
  (List.range E.length).flatMap fun i =>
    ((paisKeys E).filter (fun c => c != (getEquip E i).pais)).map fun c =>
      ⟨((equips_per_pais E c).filter (fun j => j != i)).map (fun j => (i, j)) ++
        ((equips_per_pais E c).filter (fun j => j != i)).map (fun j => (j, i)),
        Rel.le, MAX_RIVAL_MATEIX_PAIS⟩

/-- Constraint family 5 (lines 294-298): for every team and every pot of
`potsConfigurats`, exactly `PARTITS_PER_POT` away and exactly
`PARTITS_PER_POT` home matches against that pot, the team itself excluded. -/
noncomputable def consPots (E : List Equip) : List LinCon :=
  (List.range E.length).flatMap fun i =>
    potsConfigurats.flatMap fun p =>
      [⟨((equips_per_pot E p).filter (fun j => j != i)).map (fun j => (i, j)),
          Rel.eq, PARTITS_PER_POT⟩,
       ⟨((equips_per_pot E p).filter (fun j => j != i)).map (fun j => (j, i)),
          Rel.eq, PARTITS_PER_POT⟩]

/-- All constraints of the model, in generation order. -/
noncomputable def restriccions (E : List Equip) : List LinCon :=
  consGraus E ++ consParella E ++ consMateixPais E ++ consPaisEstranger E ++ consPots E

/-- The precompute loop (lines 250-255) evaluates `equips_per_pot[pot]` for
the pot of every team; a pot outside `{1, 2, 3, 4}` raises `KeyError`, so a
model is generated exactly when every pot is one of the four configured
values. -/
noncomputable def potsValids (E : List Equip) : Bool :=
  E.all (fun e => potsConfigurats.contains e.pot)

/-- `optimitzar_lliga_champions` (src/codi_CLactual.py:218) up to the solver
call: `none` models the `KeyError` of the precompute loop; `some cons` means
the constraint list `cons` was generated and `model.solve` was invoked on it
(line 301 follows the constraint loops unconditionally: the source contains
no structural-feasibility check between model generation and the solver
call). -/
noncomputable def optimitzar_lliga_champions (E : List Equip) : Option (List LinCon) :=
  if potsValids E then some (restriccions E) else none

/-- The objective of line 263, `Σ dists[i][j] * x[(i,j)]` (declarative only:
feasibility of an assignment does not depend on it). -/
noncomputable def objectiu (E : List Equip) (dists : List (List ℝ))
    (x : Nat → Nat → Nat) : ℝ :=
  ∑ i ∈ Finset.range E.length, ∑ j ∈ Finset.range E.length,
    matGet dists i j * (x i j : ℝ)

/-- Value of a constraint left-hand side under an assignment. -/
def evalTerms (x : Nat → Nat → Nat) (ts : List (Nat × Nat)) : Nat :=
  (ts.map (fun t => x t.1 t.2)).sum

/-- An assignment satisfies one constraint. -/
def satCon (x : Nat → Nat → Nat) (c : LinCon) : Prop :=
  match c.rel with
  | Rel.eq => evalTerms x c.terms = c.rhs
  | Rel.le => evalTerms x c.terms ≤ c.rhs

instance (x : Nat → Nat → Nat) (c : LinCon) : Decidable (satCon x c) := by
  unfold satCon; cases c.rel <;> exact inferInstance

/-- An assignment is feasible for a constraint list when it satisfies every
constraint of the list. -/
def feasible (cons : List LinCon) (x : Nat → Nat → Nat) : Prop :=
  ∀ c ∈ cons, satCon x c

instance (cons : List LinCon) (x : Nat → Nat → Nat) : Decidable (feasible cons x) :=
  List.decidableBAll _ cons

/-- A 0/1 N×N assignment (the variables of line 258 are declared binary). -/
def isBinary (N : Nat) (x : Nat → Nat → Nat) : Prop :=
  ∀ i < N, ∀ j < N, x i j ≤ 1

instance (N : Nat) (x : Nat → Nat → Nat) : Decidable (isBinary N x) := by
  unfold isBinary; exact inferInstance

/-! ## The five invariant families of the data model (spec §3),
stated independently of the generated constraint list -/

/-- Family 1 as claimed: every team has exactly 4 away and 4 home matches
(sums over all `j`, diagonal included, as in the generated constraints). -/
def grausOK (E : List Equip) (x : Nat → Nat → Nat) : Prop :=
  ∀ i < E.length,
    (∑ j ∈ Finset.range E.length, x i j) = 4 ∧
    (∑ j ∈ Finset.range E.length, x j i) = 4

/-- Family 1 with a generic `TOTAL_MATCHES` value `T`: the right-hand side
is `T / 2` with integer division, as in `TOTAL_PARTITS // 2` of line 269. -/
def grausGen (T : Nat) (E : List Equip) (x : Nat → Nat → Nat) : Prop :=
  ∀ i < E.length,
    (∑ j ∈ Finset.range E.length, x i j) = T / 2 ∧
    (∑ j ∈ Finset.range E.length, x j i) = T / 2

noncomputable instance (T : Nat) (E : List Equip) (x : Nat → Nat → Nat) :
    Decidable (grausGen T E x) := by
  unfold grausGen; exact inferInstance

noncomputable instance (E : List Equip) (x : Nat → Nat → Nat) :
    Decidable (grausOK E x) := by
  unfold grausOK; exact inferInstance

/-- Family 2: at most one match per unordered pair, stated per ordered
pair. -/
def parellaOK (E : List Equip) (x : Nat → Nat → Nat) : Prop :=
  ∀ i < E.length, ∀ j < E.length, i ≠ j → x i j + x j i ≤ 1

/-- Family 3: no match between same-country teams. -/
def mateixPaisOK (E : List Equip) (x : Nat → Nat → Nat) : Prop :=
  ∀ i < E.length, ∀ j < E.length,
    i ≠ j → (getEquip E i).pais = (getEquip E j).pais → x i j = 0

/-- Family 4: for every team `i` and every country `c` present in the
registry other than `i`'s own, at most 2 matches against teams of `c`. -/
def paisEstrangerOK (E : List Equip) (x : Nat → Nat → Nat) : Prop :=
  ∀ i < E.length, ∀ c : String, (∃ k < E.length, (getEquip E k).pais = c) →
    c ≠ (getEquip E i).pais →
    (∑ j ∈ (Finset.range E.length).filter (fun j => (getEquip E j).pais = c),
      (x i j + x j i)) ≤ 2

/-- Family 5: exactly one away and one home match against every pot of
`{1, 2, 3, 4}`, the team itself excluded. -/
def potsOK (E : List Equip) (x : Nat → Nat → Nat) : Prop :=
  ∀ i < E.length, ∀ p ∈ potsConfigurats,
    (∑ j ∈ (Finset.range E.length).filter
      (fun j => j ≠ i ∧ (getEquip E j).pot = p), x i j) = 1 ∧
    (∑ j ∈ (Finset.range E.length).filter
      (fun j => j ≠ i ∧ (getEquip E j).pot = p), x j i) = 1

noncomputable instance (E : List Equip) (x : Nat → Nat → Nat) :
    Decidable (potsOK E x) := by
  unfold potsOK; exact inferInstance

/-! ## Travel aggregation of the analytics script
(src/codi_CLactual.py:63-96) -/

/-- A cleaned match row (lines 57-60): normalized home and away names,
`none` when `normalize_name` returned the NA marker. -/
structure MatchRow where
  home_norm : Option String
  away_norm : Option String

/-- `stadiums_dict` (line 54): normalized team name to (lat, lon). -/
def stadiumsLookup (st : List (String × ℝ × ℝ)) (k : String) : Option (ℝ × ℝ) :=
  match st.find? (fun e => e.1 == k) with
  | none => none
  | some e => some e.2

/-- `match_distance` (src/codi_CLactual.py:63): `none` models the `np.nan`
returned when a name is missing or unmatched in the stadium table; otherwise
the haversine distance from the away stadium to the home stadium. -/
noncomputable def match_distance (st : List (String × ℝ × ℝ)) (r : MatchRow) :
    Option ℝ :=
  match r.home_norm, r.away_norm with
  | none, _ => none
  | some _, none => none
  | some h, some a =>
    match stadiumsLookup st h, stadiumsLookup st a with
    | some hc, some ac => some (haversine_km ac.1 ac.2 hc.1 hc.2)
    | _, _ => none

/-- Distinct away keys in appearance order; rows with `away_norm = None` are
dropped, since pandas `groupby` omits null keys (pandas additionally sorts
the keys, which only permutes the output rows). -/
def aggKeys (rows : List MatchRow) : List String :=
  (rows.filterMap (fun r => r.away_norm)).foldl
    (fun acc k => if k ∈ acc then acc else acc ++ [k]) []

/-- The `groupby('away_norm').agg(...)` step (src/codi_CLactual.py:85): for
every away team, `total_travel_km` (pandas `sum`, which skips NaN) and
`n_matches` (pandas `count`, which counts only non-NaN values).  The
2-decimal rounding and the descending sort of lines 90-91 only affect
presentation and are not modeled; the printed output consists of exactly
these per-team values plus their grand total (line 95). -/
noncomputable def agg (st : List (String × ℝ × ℝ)) (rows : List MatchRow) :
    List (String × ℝ × Nat) :=
  (aggKeys rows).map fun k =>
    let ds := (rows.filter (fun r => r.away_norm == some k)).map (match_distance st)
    (k, (ds.filterMap id).sum, (ds.filterMap id).length)

/-! ## Conversion of solver variables (src/codi_CLactual.py:313-330) -/

/-- Python `int()` on a numeric value: truncation toward zero.  Solver
variable values are floating-point numbers, modeled as rationals. -/
def pyInt (q : ℚ) : ℤ := if 0 ≤ q then ⌊q⌋ else ⌈q⌉

/-- A mapping loop that raises as soon as one element fails, as the Python
double loop of `convertir_variables_a_matriu` does on `int(None)`. -/
def omap (f : α → Option β) : List α → Option (List β)
  | [] => some []
  | a :: l =>
    match f a with
    | none => none
    | some b =>
      match omap f l with
      | none => none
      | some bs => some (b :: bs)

/-- `convertir_variables_a_matriu` (src/codi_CLactual.py:313), with the
variable values read by `pulp.value` as input: builds the N×N matrix of
`int(pulp.value(x[(i,j)]))` row by row; `pulp.value` yields `None` for a
variable without incumbent value, on which `int` raises `TypeError`, modeled
by the whole call returning `none` (the Python default for `N` is 36; `main`
passes `len(equips)`). -/
def convertir_variables_a_matriu (x : Nat → Nat → Option ℚ) (N : Nat) :
    Option (List (List ℤ)) :=
  omap (fun i => omap (fun j => (x i j).map pyInt) (List.range N)) (List.range N)

/-! ## Concrete instances used by witnesses and counterexamples -/

/-- Twelve-team test registry: three teams in each of the four pots, every
team in its own country (coordinates play no role in the constraint
model). -/
noncomputable def E12 : List Equip :=
  (List.range 12).map fun i =>
    ⟨"T" ++ toString i, "S" ++ toString i, 0, 0, "P" ++ toString i, i / 3 + 1⟩

/-- A valid league schedule on `E12`: inside each pot the three teams visit
each other in a 3-cycle; across pots, member `b` of a lower pot visits
member `b` of every higher pot, and member `b` of a higher pot visits member
`(b+1) % 3` of every lower pot.  Every team has 4 away and 4 home matches,
one of each against every pot, at most one match per pair, and the diagonal
is 0. -/
def xSched (i j : Nat) : Nat :=
  if (i / 3 = j / 3 ∧ j % 3 = (i % 3 + 1) % 3) ∨ (i / 3 < j / 3 ∧ j % 3 = i % 3) ∨
      (j / 3 < i / 3 ∧ j % 3 = (i % 3 + 1) % 3)
  then 1 else 0

/-- `xSched` with a self-match added on every diagonal entry. -/
def xDiag (i j : Nat) : Nat := if i = j then 1 else xSched i j

/-- Three-team registry with pots 1, 2 and 3 only: every individual pot
value is a key of `equips_per_pot`, so a model is generated, but pot 4 has
no members — the configuration `TOTAL_MATCHES = 8` with only 3 populated
pots from the infeasible-by-construction spec scenario. -/
noncomputable def E3 : List Equip :=
  [⟨"A", "SA", 0, 0, "PA", 1⟩, ⟨"B", "SB", 0, 0, "PB", 2⟩,
   ⟨"C", "SC", 0, 0, "PC", 3⟩]

/-- Two-team registry for evaluating the distance matrix. -/
noncomputable def E2 : List Equip :=
  [⟨"A", "SA", 0, 0, "PA", 1⟩, ⟨"B", "SB", 0, 90, "PB", 2⟩]

/-- Stadium table for the aggregation example. -/
noncomputable def stExample : List (String × ℝ × ℝ) := [("a", 0, 0), ("b", 0, 90)]

/-- Two match rows with away team b: one with home team a (matched), one
with home team zz, which is absent from the stadium table. -/
def rowsExample : List MatchRow := [⟨some "a", some "b"⟩, ⟨some "zz", some "b"⟩]

/-! ## General list and sum lemmas -/

theorem forall_mem_flatMap {α β : Type} {l : List α} {g : α → List β} {P : β → Prop} :
    (∀ c ∈ l.flatMap g, P c) ↔ ∀ a ∈ l, ∀ c ∈ g a, P c := by
  constructor
  · intro h a ha c hc
    exact h c (List.mem_flatMap.2 ⟨a, ha, hc⟩)
  · intro h c hc
    obtain ⟨a, ha, hca⟩ := List.mem_flatMap.1 hc
    exact h a ha c hca

theorem evalTerms_map_fst (x : Nat → Nat → Nat) (i : Nat) (l : List Nat) :
    evalTerms x (l.map fun j => (i, j)) = (l.map fun j => x i j).sum := by
  simp only [evalTerms, List.map_map]; rfl

theorem evalTerms_map_snd (x : Nat → Nat → Nat) (i : Nat) (l : List Nat) :
    evalTerms x (l.map fun j => (j, i)) = (l.map fun j => x j i).sum := by
  simp only [evalTerms, List.map_map]; rfl

theorem evalTerms_append (x : Nat → Nat → Nat) (a b : List (Nat × Nat)) :
    evalTerms x (a ++ b) = evalTerms x a + evalTerms x b := by
  simp [evalTerms]

theorem sum_map_range (f : Nat → Nat) (n : Nat) :
    ((List.range n).map f).sum = ∑ j ∈ Finset.range n, f j := by
  induction n with
  | zero => simp
  | succ n ih => simp [List.range_succ, Finset.sum_range_succ, ih]

theorem sum_map_filter_range (p : Nat → Bool) (f : Nat → Nat) (n : Nat) :
    (((List.range n).filter p).map f).sum =
      ∑ j ∈ (Finset.range n).filter (fun j => p j = true), f j := by
  induction n with
  | zero => simp
  | succ n ih =>
    rw [List.range_succ, List.filter_append, List.map_append, List.sum_append, ih,
      Finset.range_succ, Finset.filter_insert]
    by_cases h : p n
    · rw [if_pos h, Finset.sum_insert (by simp)]
      simp [h, Nat.add_comm]
    · simp [h]

theorem feasible_append (a b : List LinCon) (x : Nat → Nat → Nat) :
    feasible (a ++ b) x ↔ feasible a x ∧ feasible b x := by
  unfold feasible
  constructor
  · intro h
    exact ⟨fun c hc => h c (List.mem_append_left _ hc),
           fun c hc => h c (List.mem_append_right _ hc)⟩
  · intro h c hc
    rcases List.mem_append.1 hc with hc | hc
    · exact h.1 c hc
    · exact h.2 c hc

theorem mem_foldl_appendKeys {α : Type} [DecidableEq α] (l : List α) (acc : List α) (c : α) :
    c ∈ l.foldl (fun acc p => if p ∈ acc then acc else acc ++ [p]) acc ↔
      c ∈ acc ∨ c ∈ l := by
  induction l generalizing acc with
  | nil => simp
  | cons a l ih =>
    simp only [List.foldl_cons, ih, List.mem_cons]
    by_cases h : a ∈ acc
    · rw [if_pos h]
      constructor
      · rintro (hc | hc)
        · exact Or.inl hc
        · exact Or.inr (Or.inr hc)
      · rintro (hc | hc | hc)
        · exact Or.inl hc
        · exact Or.inl (hc ▸ h)
        · exact Or.inr hc
    · rw [if_neg h]
      simp only [List.mem_append, List.mem_singleton]
      tauto

theorem mem_paisKeys (E : List Equip) (c : String) :
    c ∈ paisKeys E ↔ ∃ k < E.length, (getEquip E k).pais = c := by
  unfold paisKeys
  rw [mem_foldl_appendKeys]
  simp [List.mem_map, eq_comm]

theorem satCon_eq (x : Nat → Nat → Nat) (ts : List (Nat × Nat)) (r : Nat) :
    satCon x ⟨ts, Rel.eq, r⟩ ↔ evalTerms x ts = r := Iff.rfl

theorem satCon_le (x : Nat → Nat → Nat) (ts : List (Nat × Nat)) (r : Nat) :
    satCon x ⟨ts, Rel.le, r⟩ ↔ evalTerms x ts ≤ r := Iff.rfl

/-! ## Each generated constraint family captures its invariant family -/

theorem feasible_consGraus (E : List Equip) (x : Nat → Nat → Nat) :
    feasible (consGraus E) x ↔ grausOK E x := by
  unfold consGraus grausOK feasible
  rw [forall_mem_flatMap]
  simp only [List.mem_range, List.mem_cons, List.not_mem_nil, or_false]
  constructor
  · intro h i hi
    have h1 := h i hi _ (Or.inl rfl)
    have h2 := h i hi _ (Or.inr rfl)
    rw [satCon_eq] at h1 h2
    rw [evalTerms_map_fst, sum_map_range] at h1
    rw [evalTerms_map_snd, sum_map_range] at h2
    exact ⟨h1, h2⟩
  · intro h i hi c hc
    rcases hc with rfl | rfl
    · rw [satCon_eq, evalTerms_map_fst, sum_map_range]
      exact (h i hi).1
    · rw [satCon_eq, evalTerms_map_snd, sum_map_range]
      exact (h i hi).2

theorem feasible_consParella (E : List Equip) (x : Nat → Nat → Nat) :
    feasible (consParella E) x ↔ parellaOK E x := by
  unfold consParella parellaOK feasible
  rw [forall_mem_flatMap]
  simp only [List.forall_mem_map, List.mem_filter, List.mem_range, satCon_le,
    evalTerms, List.map_cons, List.map_nil, List.sum_cons, List.sum_nil, add_zero,
    bne_iff_ne, ne_eq, and_imp]

theorem feasible_consMateixPais (E : List Equip) (x : Nat → Nat → Nat) :
    feasible (consMateixPais E) x ↔ mateixPaisOK E x := by
  unfold consMateixPais mateixPaisOK feasible
  rw [forall_mem_flatMap]
  simp only [List.forall_mem_map, List.mem_filter, List.mem_range, satCon_eq,
    evalTerms, List.map_cons, List.map_nil, List.sum_cons, List.sum_nil, add_zero,
    Bool.and_eq_true, bne_iff_ne, ne_eq, beq_iff_eq, and_imp]

theorem sum_filter_pais (E : List Equip) (i : Nat) (c : String) (f : Nat → Nat)
    (hc : c ≠ (getEquip E i).pais) :
    (((equips_per_pais E c).filter (fun j => j != i)).map f).sum =
      ∑ j ∈ (Finset.range E.length).filter (fun j => (getEquip E j).pais = c), f j := by
  unfold equips_per_pais
  rw [List.filter_filter, sum_map_filter_range]
  refine Finset.sum_congr (Finset.filter_congr ?_) (fun _ _ => rfl)
  intro j hj
  simp only [Bool.and_eq_true, bne_iff_ne, ne_eq, beq_iff_eq, decide_eq_true_eq]
  constructor
  · exact fun h => h.2
  · intro h
    refine ⟨fun e => hc ?_, h⟩
    rw [← e, h]

theorem sum_filter_pot (E : List Equip) (i p : Nat) (f : Nat → Nat) :
    (((equips_per_pot E p).filter (fun j => j != i)).map f).sum =
      ∑ j ∈ (Finset.range E.length).filter
        (fun j => j ≠ i ∧ (getEquip E j).pot = p), f j := by
  unfold equips_per_pot
  rw [List.filter_filter, sum_map_filter_range]
  refine Finset.sum_congr (Finset.filter_congr ?_) (fun _ _ => rfl)
  intro j hj
  simp only [Bool.and_eq_true, bne_iff_ne, ne_eq, beq_iff_eq, decide_eq_true_eq]

theorem feasible_consPaisEstranger (E : List Equip) (x : Nat → Nat → Nat) :
    feasible (consPaisEstranger E) x ↔ paisEstrangerOK E x := by
  unfold consPaisEstranger paisEstrangerOK feasible
  rw [forall_mem_flatMap]
  simp only [List.forall_mem_map, List.mem_filter, List.mem_range, and_imp,
    bne_iff_ne, ne_eq]
  constructor
  · intro h i hi c hpres hne
    have hc := h i hi c ((mem_paisKeys E c).2 hpres) hne
    rw [satCon_le, evalTerms_append, evalTerms_map_fst, evalTerms_map_snd,
      sum_filter_pais E i c _ hne, sum_filter_pais E i c _ hne] at hc
    rw [Finset.sum_add_distrib]
    exact hc
  · intro h i hi c hmem hne
    have hc := h i hi c ((mem_paisKeys E c).1 hmem) hne
    rw [Finset.sum_add_distrib] at hc
    rw [satCon_le, evalTerms_append, evalTerms_map_fst, evalTerms_map_snd,
      sum_filter_pais E i c _ hne, sum_filter_pais E i c _ hne]
    exact hc

theorem feasible_consPots (E : List Equip) (x : Nat → Nat → Nat) :
    feasible (consPots E) x ↔ potsOK E x := by
  unfold consPots potsOK feasible
  simp only [forall_mem_flatMap, List.mem_range, List.mem_cons, List.not_mem_nil,
    or_false]
  constructor
  · intro h i hi p hp
    have h1 := h i hi p hp _ (Or.inl rfl)
    have h2 := h i hi p hp _ (Or.inr rfl)
    rw [satCon_eq, evalTerms_map_fst, sum_filter_pot] at h1
    rw [satCon_eq, evalTerms_map_snd, sum_filter_pot] at h2
    exact ⟨h1, h2⟩
  · intro h i hi p hp c hc
    rcases hc with rfl | rfl
    · rw [satCon_eq, evalTerms_map_fst, sum_filter_pot]
      exact (h i hi p hp).1
    · rw [satCon_eq, evalTerms_map_snd, sum_filter_pot]
      exact (h i hi p hp).2

theorem optimitzar_some (E : List Equip) (cons : List LinCon)
    (h : optimitzar_lliga_champions E = some cons) :
    potsValids E = true ∧ cons = restriccions E := by
  unfold optimitzar_lliga_champions at h
  by_cases hp : potsValids E = true
  · rw [if_pos hp] at h
    exact ⟨hp, (Option.some_injective _ h).symm⟩
  · rw [if_neg hp] at h
    cases h

theorem getEquip_mem (E : List Equip) (i : Nat) (hi : i < E.length) :
    getEquip E i ∈ E := by
  unfold getEquip
  rw [List.getD_eq_getElem?_getD, List.getElem?_eq_getElem hi]
  exact List.getElem_mem hi

/-- With every pot among the four configured values (as the successful model
build guarantees), the away sum of any team decomposes as its diagonal
variable plus one unit per pot. -/
theorem sum_away_split (E : List Equip) (x : Nat → Nat → Nat) (i : Nat)
    (hi : i < E.length) (hpots : potsValids E = true) (hpot : potsOK E x) :
    ∑ j ∈ Finset.range E.length, x i j = x i i + 4 := by
  have hmem : ∀ e ∈ E, e.pot ∈ potsConfigurats := by
    intro e he
    have := (List.all_eq_true.1 hpots) e he
    simpa using this
  have hmaps : ∀ j ∈ (Finset.range E.length).filter (fun j => j ≠ i),
      (getEquip E j).pot ∈ potsConfigurats.toFinset := by
    intro j hj
    rw [List.mem_toFinset]
    exact hmem _ (getEquip_mem E j (Finset.mem_range.1 (Finset.mem_filter.1 hj).1))
  have hfib := Finset.sum_fiberwise_of_maps_to hmaps (fun j => x i j)
  have hone : ∀ p ∈ potsConfigurats.toFinset,
      (∑ j ∈ ((Finset.range E.length).filter (fun j => j ≠ i)).filter
        (fun j => (getEquip E j).pot = p), x i j) = 1 := by
    intro p hp
    rw [Finset.filter_filter]
    exact (hpot i hi p (List.mem_toFinset.1 hp)).1
  rw [Finset.sum_congr rfl hone, Finset.sum_const, smul_eq_mul] at hfib
  have hcard : potsConfigurats.toFinset.card = 4 := by decide
  rw [hcard] at hfib
  have hsplit : (∑ j ∈ (Finset.range E.length).filter (fun j => j ≠ i), x i j) + x i i
      = ∑ j ∈ Finset.range E.length, x i j := by
    rw [Finset.filter_ne']
    exact Finset.sum_erase_add _ _ (Finset.mem_range.2 hi)
  omega

/-! ## The claims -/

/-- C1: an N×N 0/1 assignment is feasible for the model generated by
`optimitzar_lliga_champions` exactly when it satisfies the five invariant
families of the data model: degree 4 in both directions, at most one match
per pair, no same-country match, at most two matches against each foreign
country, and exactly one away and one home match against every pot. -/
theorem model_feasible_iff_invariants (E : List Equip) (cons : List LinCon)
    (x : Nat → Nat → Nat)
    (hbuild : optimitzar_lliga_champions E = some cons)
    (hbin : isBinary E.length x) :
    feasible cons x ↔
      grausOK E x ∧ parellaOK E x ∧ mateixPaisOK E x ∧
        paisEstrangerOK E x ∧ potsOK E x := by
  obtain ⟨hp, rfl⟩ := optimitzar_some E cons hbuild
  unfold restriccions
  rw [feasible_append, feasible_append, feasible_append, feasible_append,
    feasible_consGraus, feasible_consParella, feasible_consMateixPais,
    feasible_consPaisEstranger, feasible_consPots]
  tauto

set_option maxRecDepth 200000 in
theorem model_feasible_iff_invariants_witness :
    feasible (restriccions E12) xSched ↔
      grausOK E12 xSched ∧ parellaOK E12 xSched ∧ mateixPaisOK E12 xSched ∧
        paisEstrangerOK E12 xSched ∧ potsOK E12 xSched :=
  model_feasible_iff_invariants E12 (restriccions E12) xSched rfl (by decide)

/-- C2: although no constraint fixes a diagonal variable directly, every
feasible solution of a generated model has `x[(i,i)] = 0` for every team:
the degree constraint says the away sum including the diagonal is 4, and the
four pot constraints already force 4 away matches among the other teams. -/
theorem model_zero_diagonal (E : List Equip) (cons : List LinCon)
    (x : Nat → Nat → Nat)
    (hbuild : optimitzar_lliga_champions E = some cons)
    (hbin : isBinary E.length x)
    (hfeas : feasible cons x) :
    ∀ i < E.length, x i i = 0 := by
  obtain ⟨hp, rfl⟩ := optimitzar_some E cons hbuild
  unfold restriccions at hfeas
  rw [feasible_append, feasible_append, feasible_append, feasible_append] at hfeas
  have hdeg := (feasible_consGraus E x).1 hfeas.1.1.1.1
  have hpot := (feasible_consPots E x).1 hfeas.2
  intro i hi
  have h1 := (hdeg i hi).1
  have h2 := sum_away_split E x i hi hp hpot
  omega

set_option maxRecDepth 200000 in
theorem model_zero_diagonal_witness : xSched 0 0 = 0 :=
  model_zero_diagonal E12 (restriccions E12) xSched rfl (by decide) (by decide)
    0 (by decide)

/-- C3, counterexample: a binary assignment (a valid schedule plus a
self-match for every team) satisfies the degree family generated with
`TOTAL_MATCHES = 10` together with the pot-balance family, yet
`10 ≠ 2 × number_of_pots`: the two families alone do not force the claimed
identity, because no constraint bounds the diagonal variables. -/
theorem degree_pot_do_not_force_total :
    isBinary E12.length xDiag ∧ grausGen 10 E12 xDiag ∧ potsOK E12 xDiag ∧
      (10 : Nat) ≠ 2 * nombreDePots := by decide

/-- C3, amended: for an assignment with zero diagonal (as every
FixtureAssignment requires), a nonempty registry and pots among the
configured four, the degree family generated with `TOTAL_MATCHES = T`
(right-hand side `T // 2`, as the code computes it) together with the
pot-balance family forces `T / 2 = number_of_pots`; for even `T` this is
the spec identity `T = 2 × number_of_pots`, which the configured
`TOTAL_PARTITS = 8` satisfies. -/
theorem degree_pot_force_total_of_zero_diag (T : Nat) (E : List Equip)
    (x : Nat → Nat → Nat)
    (hpots : potsValids E = true) (hne : 0 < E.length)
    (hdiag : ∀ i < E.length, x i i = 0)
    (hdeg : grausGen T E x) (hpot : potsOK E x) :
    T / 2 = nombreDePots ∧ (T % 2 = 0 → T = 2 * nombreDePots) := by
  have h0 := (hdeg 0 hne).1
  have hs := sum_away_split E x 0 hne hpots hpot
  rw [hdiag 0 hne] at hs
  have hnp : nombreDePots = 4 := rfl
  rw [hnp]
  omega

theorem degree_pot_force_total_witness :
    (8 : Nat) / 2 = nombreDePots ∧ ((8 : Nat) % 2 = 0 → 8 = 2 * nombreDePots) :=
  degree_pot_force_total_of_zero_diag 8 E12 xSched (by decide) (by decide)
    (by decide) (by decide) (by decide)

/-- C4: the code performs no structural-infeasibility check before solving.
On the registry `E3` (three teams, pots 1-3 populated, `TOTAL_PARTITS = 8`,
so the pot/match-count identity fails), `optimitzar_lliga_champions` still
generates the model and reaches the unconditional `model.solve` call of line
301 (`some`), the generated list contains the unsatisfiable constraint
`0 = 1` (the pot-4 sum over an empty member list), and no assignment
whatsoever is feasible — the contradictory model is submitted to the solver
instead of being rejected with a diagnostic. -/
theorem infeasible_model_submitted_to_solver :
    optimitzar_lliga_champions E3 = some (restriccions E3) ∧
      (⟨[], Rel.eq, 1⟩ : LinCon) ∈ restriccions E3 ∧
      ∀ x : Nat → Nat → Nat, ¬ feasible (restriccions E3) x := by
  refine ⟨rfl, by decide, fun x h => ?_⟩
  have hc := h ⟨[], Rel.eq, 1⟩ (by decide)
  rw [satCon_eq] at hc
  simp [evalTerms] at hc

/-! ## Distance lemmas -/

theorem sin_half_sq (u : ℝ) : sin (u / 2) ^ 2 = 1 / 2 - cos u / 2 := by
  have h := Real.sin_sq_eq_half_sub (u / 2)
  rwa [show 2 * (u / 2) = u by ring] at h

theorem havA_bounds_aux (p q d : ℝ) :
    0 ≤ sin ((q - p) / 2) ^ 2 + cos p * cos q * sin (d / 2) ^ 2 ∧
      sin ((q - p) / 2) ^ 2 + cos p * cos q * sin (d / 2) ^ 2 ≤ 1 := by
  rw [sin_half_sq, sin_half_sq, Real.cos_sub]
  have h1 := Real.sin_sq_add_cos_sq p
  have h2 := Real.sin_sq_add_cos_sq q
  have h3 := Real.cos_le_one d
  have h4 := Real.neg_one_le_cos d
  constructor
  · nlinarith [mul_nonneg (by linarith : (0:ℝ) ≤ 1 + cos d) (sq_nonneg (cos p - cos q)),
      mul_nonneg (by linarith : (0:ℝ) ≤ 1 - cos d) (sq_nonneg (cos p + cos q)),
      sq_nonneg (sin p - sin q)]
  · nlinarith [mul_nonneg (by linarith : (0:ℝ) ≤ 1 - cos d) (sq_nonneg (cos p - cos q)),
      mul_nonneg (by linarith : (0:ℝ) ≤ 1 + cos d) (sq_nonneg (cos p + cos q)),
      sq_nonneg (sin p + sin q)]

theorem havA_mem (lat1 lon1 lat2 lon2 : ℝ) :
    0 ≤ havA lat1 lon1 lat2 lon2 ∧ havA lat1 lon1 lat2 lon2 ≤ 1 := by
  unfold havA
  exact havA_bounds_aux _ _ _

theorem havA_comm (a b c d : ℝ) : havA a b c d = havA c d a b := by
  unfold havA
  have h : ∀ u v : ℝ, sin ((u - v) / 2) ^ 2 = sin ((v - u) / 2) ^ 2 := by
    intro u v
    rw [show (u - v) / 2 = -((v - u) / 2) by ring, Real.sin_neg]
    ring
  rw [h (radians c) (radians a), h (radians d) (radians b)]
  ring

/-- On the haversine value range `[0, 1]`, the `asin`-based central angle of
`haversine_km` and the `atan2`-based one of `calcular_distancia_haversine`
agree. -/
theorem arcsin_sqrt_eq_atan2 (A : ℝ) (h0 : 0 ≤ A) (h1 : A ≤ 1) :
    arcsin (Real.sqrt A) = atan2 (Real.sqrt A) (Real.sqrt (1 - A)) := by
  rcases lt_or_eq_of_le h1 with hlt | heq
  · have hpos : 0 < Real.sqrt (1 - A) := Real.sqrt_pos.2 (by linarith)
    unfold atan2
    rw [if_pos hpos]
    rw [Real.arcsin_eq_arctan (Set.mem_Ioo.2 ⟨by
        have := Real.sqrt_nonneg A; linarith, by
        calc Real.sqrt A < Real.sqrt 1 := Real.sqrt_lt_sqrt h0 hlt
          _ = 1 := Real.sqrt_one⟩)]
    congr 2
    rw [Real.sq_sqrt h0]
  · subst heq
    unfold atan2
    norm_num [Real.sqrt_one, Real.arcsin_one]

theorem getD_map_range {α : Type} (n i : Nat) (hi : i < n) (f : Nat → α) (d : α) :
    ((List.range n).map f).getD i d = f i := by
  rw [List.getD_eq_getElem?_getD, List.getElem?_map, List.getElem?_range hi]
  rfl

theorem crear_get (E : List Equip) (i j : Nat) (hi : i < E.length)
    (hj : j < E.length) :
    matGet (crear_matriu_distancies E) i j =
      if i ≠ j then
        calcular_distancia_haversine (getEquip E i).lat (getEquip E i).lon
          (getEquip E j).lat (getEquip E j).lon
      else 0 := by
  unfold matGet crear_matriu_distancies
  rw [getD_map_range _ _ hi, getD_map_range _ _ hj]

/-- C5: the distance matrix has a zero diagonal and is symmetric, because
`calcular_distancia_haversine` is symmetric in its two coordinate points —
exactly, in the real-number model of the floating computation, hence in
particular within the 1e-9 tolerance of the spec. -/
theorem matriu_distancies_diag_zero_symm (E : List Equip) (i j : Nat)
    (hi : i < E.length) (hj : j < E.length) :
    matGet (crear_matriu_distancies E) i i = 0 ∧
      matGet (crear_matriu_distancies E) i j =
        matGet (crear_matriu_distancies E) j i ∧
      ∀ a b c d : ℝ, calcular_distancia_haversine a b c d =
        calcular_distancia_haversine c d a b := by
  have hsym : ∀ a b c d : ℝ, calcular_distancia_haversine a b c d =
      calcular_distancia_haversine c d a b := by
    intro a b c d
    unfold calcular_distancia_haversine
    rw [havA_comm]
  refine ⟨?_, ?_, hsym⟩
  · rw [crear_get E i i hi hi]
    simp
  · rw [crear_get E i j hi hj, crear_get E j i hj hi]
    by_cases h : i = j
    · subst h
      simp
    · rw [if_pos h, if_pos (fun e => h e.symm)]
      exact hsym _ _ _ _

theorem matriu_distancies_witness :
    matGet (crear_matriu_distancies E2) 0 0 = 0 ∧
      matGet (crear_matriu_distancies E2) 0 1 =
        matGet (crear_matriu_distancies E2) 1 0 ∧
      ∀ a b c d : ℝ, calcular_distancia_haversine a b c d =
        calcular_distancia_haversine c d a b :=
  matriu_distancies_diag_zero_symm E2 0 1 (by simp [E2]) (by simp [E2])

/-- C6: the two haversine implementations compute the same central angle
(`asin (sqrt a) = atan2 (sqrt a, sqrt (1-a))` on the range `a ∈ [0,1]`,
which the haversine intermediate never leaves) and differ exactly by the
ratio of the two Earth-radius constants, 6371.0088 and 6371.0. -/
theorem haversine_km_eq_ratio_calcular (lat1 lon1 lat2 lon2 : ℝ) :
    haversine_km lat1 lon1 lat2 lon2 =
      (6371.0088 / 6371.0) * calcular_distancia_haversine lat1 lon1 lat2 lon2 := by
  unfold haversine_km calcular_distancia_haversine
  obtain ⟨h0, h1⟩ := havA_mem lat1 lon1 lat2 lon2
  rw [arcsin_sqrt_eq_atan2 _ h0 h1]
  have h : (6371.0 : ℝ) ≠ 0 := by norm_num
  field_simp
  ring

/-! ## Normalization lemmas -/

theorem splitAll_ne_nil (sp : Char → Bool) (l : List Char) : splitAll sp l ≠ [] := by
  cases l with
  | nil => simp [splitAll]
  | cons c rest =>
    simp only [splitAll]
    split <;> simp

theorem splitAll_chunk_chars (sp : Char → Bool) (l : List Char) :
    ∀ w ∈ splitAll sp l, ∀ c ∈ w, sp c = false ∧ c ∈ l := by
  induction l with
  | nil =>
    intro w hw c hc
    simp only [splitAll, List.mem_singleton] at hw
    subst hw
    cases hc
  | cons a rest ih =>
    intro w hw c hc
    simp only [splitAll] at hw
    by_cases ha : sp a
    · rw [if_pos ha] at hw
      rcases List.mem_cons.1 hw with rfl | hw
      · cases hc
      · have h := ih w hw c hc
        exact ⟨h.1, List.mem_cons_of_mem _ h.2⟩
    · rw [if_neg ha] at hw
      rcases List.mem_cons.1 hw with rfl | hw
      · rcases List.mem_cons.1 hc with rfl | hc
        · exact ⟨by simpa using ha, List.mem_cons_self _ _⟩
        · rcases hr : splitAll sp rest with _ | ⟨h, t⟩
          · exact absurd hr (splitAll_ne_nil sp rest)
          · rw [hr] at hc
            have hm := ih h (by rw [hr]; exact List.mem_cons_self _ _) c hc
            exact ⟨hm.1, List.mem_cons_of_mem _ hm.2⟩
      · have hw' : w ∈ splitAll sp rest := List.mem_of_mem_tail hw
        have hm := ih w hw' c hc
        exact ⟨hm.1, List.mem_cons_of_mem _ hm.2⟩

theorem splitAll_append_word (sp : Char → Bool) (w l : List Char)
    (hw : ∀ c ∈ w, sp c = false) :
    splitAll sp (w ++ l) =
      (w ++ (splitAll sp l).headD []) :: (splitAll sp l).tail := by
  induction w with
  | nil =>
    simp only [List.nil_append]
    rcases hr : splitAll sp l with _ | ⟨h, t⟩
    · exact absurd hr (splitAll_ne_nil sp l)
    · simp
  | cons a w ih =>
    have ha : sp a = false := hw a (List.mem_cons_self _ _)
    have ih' := ih (fun c hc => hw c (List.mem_cons_of_mem _ hc))
    show splitAll sp (a :: (w ++ l)) = _
    simp only [splitAll]
    rw [if_neg (by simp [ha]), ih']
    simp

theorem splitAll_sep_cons (sp : Char → Bool) (c : Char) (l : List Char)
    (hc : sp c = true) : splitAll sp (c :: l) = [] :: splitAll sp l := by
  simp [splitAll, hc]

theorem splitWs_chunks (sp : Char → Bool) (l : List Char) :
    ∀ w ∈ splitWs sp l, w ≠ [] ∧ ∀ c ∈ w, sp c = false ∧ c ∈ l := by
  intro w hw
  have h1 := (List.mem_filter.1 hw).2
  have h2 := splitAll_chunk_chars sp l w (List.mem_filter.1 hw).1
  exact ⟨by simpa using h1, h2⟩

theorem splitWs_joinSpace (sp : Char → Bool) (ws : List (List Char))
    (hsp : sp ' ' = true)
    (hne : ∀ w ∈ ws, w ≠ [])
    (hch : ∀ w ∈ ws, ∀ c ∈ w, sp c = false) :
    splitWs sp (joinSpace ws) = ws := by
  induction ws with
  | nil => simp [joinSpace, splitWs, splitAll]
  | cons w ws ih =>
    have hw := hne w (List.mem_cons_self _ _)
    have hwc := hch w (List.mem_cons_self _ _)
    cases ws with
    | nil =>
      show splitWs sp (joinSpace [w]) = [w]
      have h1 : splitAll sp w = [w] := by
        have h := splitAll_append_word sp w [] hwc
        simpa [splitAll] using h
      unfold splitWs
      rw [show joinSpace [w] = w from rfl, h1, List.filter_cons]
      obtain ⟨c, w'', rfl⟩ := List.exists_cons_of_ne_nil hw
      simp
    | cons w' ws' =>
      have ih' := ih (fun v hv => hne v (List.mem_cons_of_mem _ hv))
        (fun v hv => hch v (List.mem_cons_of_mem _ hv))
      show splitWs sp (w ++ ' ' :: joinSpace (w' :: ws')) = w :: w' :: ws'
      unfold splitWs
      rw [splitAll_append_word sp w _ hwc, splitAll_sep_cons sp ' ' _ hsp]
      simp only [List.headD_cons, List.tail_cons, List.append_nil]
      rw [List.filter_cons]
      obtain ⟨c, w'', rfl⟩ := List.exists_cons_of_ne_nil hw
      simp only [List.isEmpty_cons, Bool.not_false, if_pos]
      exact congrArg _ ih'

theorem joinSpace_append_single (zs : List (List Char)) (v : List Char) :
    joinSpace (zs ++ [v]) =
      if zs.isEmpty then v else joinSpace zs ++ ' ' :: v := by
  induction zs with
  | nil => simp [joinSpace]
  | cons w zs ih =>
    cases zs with
    | nil => simp [joinSpace]
    | cons w' zs' =>
      show w ++ ' ' :: joinSpace ((w' :: zs') ++ [v]) = _
      rw [ih]
      simp [joinSpace]

theorem joinSpace_reverse (ws : List (List Char)) :
    (joinSpace ws).reverse = joinSpace ((ws.map List.reverse).reverse) := by
  induction ws with
  | nil => simp [joinSpace]
  | cons w ws ih =>
    cases ws with
    | nil => simp [joinSpace]
    | cons w' ws' =>
      show (w ++ ' ' :: joinSpace (w' :: ws')).reverse = _
      rw [List.map_cons, List.reverse_cons, joinSpace_append_single,
        if_neg (by simp), ← ih]
      simp [List.reverse_append]

theorem dropWhile_eq_self_of_head (sp : Char → Bool) (l : List Char)
    (h : ∀ c, l.head? = some c → sp c = false) : l.dropWhile sp = l := by
  cases l with
  | nil => rfl
  | cons a l =>
    rw [List.dropWhile_cons]
    simp [h a rfl]

theorem joinSpace_head_not_space (sp : Char → Bool) (ws : List (List Char))
    (hne : ∀ w ∈ ws, w ≠ [])
    (hch : ∀ w ∈ ws, ∀ c ∈ w, sp c = false) :
    ∀ c, (joinSpace ws).head? = some c → sp c = false := by
  cases ws with
  | nil => intro c hc; cases hc
  | cons w ws =>
    intro c hc
    obtain ⟨a, w', rfl⟩ := List.exists_cons_of_ne_nil (hne w (List.mem_cons_self _ _))
    have ha : (joinSpace ((a :: w') :: ws)).head? = some a := by
      cases ws with
      | nil => rfl
      | cons w'' ws' => rfl
    rw [ha] at hc
    have hac : a = c := Option.some.inj hc
    subst hac
    exact hch _ (List.mem_cons_self _ _) a (List.mem_cons_self _ _)

theorem pyStrip_joinSpace (sp : Char → Bool) (ws : List (List Char))
    (hne : ∀ w ∈ ws, w ≠ [])
    (hch : ∀ w ∈ ws, ∀ c ∈ w, sp c = false) :
    pyStrip sp (joinSpace ws) = joinSpace ws := by
  have hne' : ∀ w ∈ (ws.map List.reverse).reverse, w ≠ [] := by
    intro w hw
    rw [List.mem_reverse, List.mem_map] at hw
    obtain ⟨v, hv, rfl⟩ := hw
    simpa using hne v hv
  have hch' : ∀ w ∈ (ws.map List.reverse).reverse, ∀ c ∈ w, sp c = false := by
    intro w hw c hc
    rw [List.mem_reverse, List.mem_map] at hw
    obtain ⟨v, hv, rfl⟩ := hw
    exact hch v hv c (List.mem_reverse.1 hc)
  unfold pyStrip
  rw [dropWhile_eq_self_of_head sp _ (joinSpace_head_not_space sp ws hne hch),
    joinSpace_reverse,
    dropWhile_eq_self_of_head sp _
      (joinSpace_head_not_space sp _ hne' hch'),
    ← joinSpace_reverse, List.reverse_reverse]

theorem flatMap_id_of_stable (f : Char → List Char) (l : List Char)
    (h : ∀ c ∈ l, f c = [c]) : l.flatMap f = l := by
  induction l with
  | nil => rfl
  | cons a l ih =>
    rw [List.flatMap_cons, h a (List.mem_cons_self _ _),
      ih (fun c hc => h c (List.mem_cons_of_mem _ hc))]
    rfl

theorem mem_joinSpace (c : Char) (ws : List (List Char)) (h : c ∈ joinSpace ws) :
    c = ' ' ∨ ∃ w ∈ ws, c ∈ w := by
  induction ws with
  | nil => cases h
  | cons w ws ih =>
    cases ws with
    | nil => exact Or.inr ⟨w, List.mem_cons_self _ _, h⟩
    | cons w' ws' =>
      rcases List.mem_append.1 h with hw | hrest
      · exact Or.inr ⟨w, List.mem_cons_self _ _, hw⟩
      · rcases List.mem_cons.1 hrest with rfl | hJ
        · exact Or.inl rfl
        · rcases ih hJ with h' | ⟨v, hv, hcv⟩
          · exact Or.inl h'
          · exact Or.inr ⟨v, List.mem_cons_of_mem _ hv, hcv⟩

theorem pipeline_flatMap (m : UnicodeModel) (l : List Char) :
    ((l.flatMap m.casefoldChar).flatMap m.nfkdChar).filter
        (fun c => m.combClass c == 0) =
      l.flatMap (pipelineChar m) := by
  induction l with
  | nil => rfl
  | cons a l ih =>
    simp only [List.flatMap_cons, List.flatMap_append, List.filter_append, ih]
    rfl

theorem normalize_name_pipeline (m : UnicodeModel) (l : List Char) :
    normalize_name m l =
      joinSpace (splitWs m.isSpace
        ((pyStrip m.isSpace l).flatMap (pipelineChar m))) := by
  unfold normalize_name
  dsimp only
  rw [pipeline_flatMap]

/-- C7, counterexample: `normalize_name` is not idempotent on the Python
runtime's Unicode tables.  U+1D400 MATHEMATICAL BOLD CAPITAL A has no case
folding, but its NFKD compatibility decomposition is the plain capital A, so
the first pass outputs an uppercase letter and only the second pass lowers
it. -/
theorem normalize_name_not_idempotent :
    normalize_name mUnicode (normalize_name mUnicode ['𝐀']) ≠
      normalize_name mUnicode ['𝐀'] := by decide

/-- C7, amended: `normalize_name` is idempotent whenever every character the
casefold-NFKD-strip pipeline can emit is itself casefold- and NFKD-stable
(true in particular of plain ASCII text): the first pass then yields space-
separated words of stable, non-combining, non-whitespace characters, which
every later stage maps to themselves. -/
theorem normalize_name_idempotent_of_stable (m : UnicodeModel)
    (hsp : m.isSpace ' ' = true)
    (hf : m.casefoldChar ' ' = [' '])
    (hn : m.nfkdChar ' ' = [' '])
    (hc0 : m.combClass ' ' = 0)
    (hstab : ∀ d : Char, ∀ c ∈ pipelineChar m d,
      m.casefoldChar c = [c] ∧ m.nfkdChar c = [c])
    (l : List Char) :
    normalize_name m (normalize_name m l) = normalize_name m l := by
  rw [normalize_name_pipeline m l]
  have hSmem : ∀ c ∈ (pyStrip m.isSpace l).flatMap (pipelineChar m),
      m.casefoldChar c = [c] ∧ m.nfkdChar c = [c] ∧ m.combClass c = 0 := by
    intro c hcs
    obtain ⟨d, _, hcd⟩ := List.mem_flatMap.1 hcs
    have h1 := hstab d c hcd
    have h2 := (List.mem_filter.1 hcd).2
    exact ⟨h1.1, h1.2, by simpa using h2⟩
  have hchunk := splitWs_chunks m.isSpace
    ((pyStrip m.isSpace l).flatMap (pipelineChar m))
  have hne : ∀ w ∈ splitWs m.isSpace
      ((pyStrip m.isSpace l).flatMap (pipelineChar m)), w ≠ [] :=
    fun w hw => (hchunk w hw).1
  have hch : ∀ w ∈ splitWs m.isSpace
      ((pyStrip m.isSpace l).flatMap (pipelineChar m)), ∀ c ∈ w,
      m.isSpace c = false :=
    fun w hw c hc => ((hchunk w hw).2 c hc).1
  have hstable : ∀ c ∈ joinSpace (splitWs m.isSpace
      ((pyStrip m.isSpace l).flatMap (pipelineChar m))), pipelineChar m c = [c] := by
    intro c hcJ
    rcases mem_joinSpace c _ hcJ with rfl | ⟨w, hw, hcw⟩
    · unfold pipelineChar
      rw [hf]
      simp [hn, hc0]
    · obtain ⟨hcf, hnf, hcl⟩ := hSmem c ((hchunk w hw).2 c hcw).2
      unfold pipelineChar
      rw [hcf]
      simp [hnf, hcl]
  rw [normalize_name_pipeline m _, pyStrip_joinSpace m.isSpace _ hne hch,
    flatMap_id_of_stable _ _ hstable,
    splitWs_joinSpace m.isSpace _ hsp hne hch]

theorem normalize_name_idempotent_witness :
    normalize_name mId (normalize_name mId ['a', ' ', ' ', 'B', 'c']) =
      normalize_name mId ['a', ' ', ' ', 'B', 'c'] :=
  normalize_name_idempotent_of_stable mId rfl rfl rfl rfl
    (fun _ c _ => ⟨rfl, rfl⟩) ['a', ' ', ' ', 'B', 'c']

/-- C8, counterexample: `normalize_name` maps the NA marker to `None`, but
the empty string to the empty string, not to the absent marker: `pd.isna`
is false on a string, so the string branch runs and returns the normalized
(still empty) text. -/
theorem normalize_name_empty_not_absent :
    normalize_name_top mId (some []) = some [] ∧
      (some ([] : List Char)) ≠ (none : Option (List Char)) := by decide

/-- C8, amended: for every table model, `normalize_name` maps a missing
value (`None`/`NaN`) to the explicit absent marker `None`, but it maps the
empty string to the empty string. -/
theorem normalize_name_absent_behavior (m : UnicodeModel) :
    normalize_name_top m none = none ∧
      normalize_name_top m (some []) = some [] :=
  ⟨rfl, rfl⟩

/-- C9: on a dataset with two away records for team b — one matched, one
whose home team zz is absent from the stadium table — the unmatched record
yields NaN (`none`), is excluded from the aggregation (pandas `sum` and
`count` both skip NaN, so `n_matches` is 1, not 2), and the script's output,
which consists of exactly the per-team `(total_travel_km, n_matches)` rows
of `agg` plus their grand total, carries no count of the excluded records:
they are dropped silently, against the spec's reporting requirement. -/
theorem unmatched_record_excluded_uncounted :
    match_distance stExample ⟨some "zz", some "b"⟩ = none ∧
      (agg stExample rowsExample).map (fun r => (r.1, r.2.2)) = [("b", 1)] ∧
      (rowsExample.filter (fun r => r.away_norm == some "b")).length = 2 :=
  ⟨rfl, rfl, rfl⟩

theorem omap_eq_none {α β : Type} (f : α → Option β) (l : List α) :
    omap f l = none ↔ ∃ a ∈ l, f a = none := by
  induction l with
  | nil => simp [omap]
  | cons a l ih =>
    constructor
    · intro h
      cases hfa : f a with
      | none => exact ⟨a, List.mem_cons_self _ _, hfa⟩
      | some b =>
        cases hol : omap f l with
        | none =>
          obtain ⟨x, hx, hfx⟩ := ih.1 hol
          exact ⟨x, List.mem_cons_of_mem _ hx, hfx⟩
        | some bs => simp [omap, hfa, hol] at h
    · rintro ⟨x, hx, hfx⟩
      rcases List.mem_cons.1 hx with rfl | hx
      · simp [omap, hfx]
      · cases hfa : f a with
        | none => simp [omap, hfa]
        | some b =>
          have hnone : omap f l = none := ih.2 ⟨x, hx, hfx⟩
          simp [omap, hfa, hnone]

/-- C10: the conversion of solver variables fails (the Python `int(None)`
raises `TypeError`) exactly when some decision variable in the N×N range
carries no numeric value — which is the case when the solve ends without an
incumbent; conversely it is total precisely when every variable has a
value. -/
theorem convertir_none_iff_missing_value (x : Nat → Nat → Option ℚ) (N : Nat) :
    convertir_variables_a_matriu x N = none ↔
      ∃ i < N, ∃ j < N, x i j = none := by
  unfold convertir_variables_a_matriu
  rw [omap_eq_none]
  constructor
  · rintro ⟨i, hi, hrow⟩
    rw [omap_eq_none] at hrow
    obtain ⟨j, hj, hxij⟩ := hrow
    exact ⟨i, List.mem_range.1 hi, j, List.mem_range.1 hj,
      Option.map_eq_none'.1 hxij⟩
  · rintro ⟨i, hi, j, hj, hxij⟩
    refine ⟨i, List.mem_range.2 hi, ?_⟩
    rw [omap_eq_none]
    refine ⟨j, List.mem_range.2 hj, ?_⟩
    rw [hxij]
    rfl

end CL
